import Mathlib

set_option maxHeartbeats 1000000

namespace CrewComposer

/-! Shallow embedding of src/crew_composer/scheduler.py: the ScheduleStore
(file-backed CRUD over db/schedules.json) and the SchedulerService
reconciliation pass.  JSON documents are modelled by the inductive type Json;
numbers are modelled as integers (no schedule document reasoned about in this
development carries a floating-point literal). -/

inductive Json : Type where
  | null : Json
  | bool (b : Bool) : Json
  | num (n : Int) : Json
  | str (s : String) : Json
  | arr (elems : List Json) : Json
  | obj (fields : List (String × Json)) : Json

/-- Python dict lookup, first binding wins (json.loads never yields duplicate
keys, so the association lists standing for dicts have distinct keys). -/
def alookup {β : Type} : List (String × β) → String → Option β
  | [], _ => none
  | (k, v) :: rest, key => if k = key then some v else alookup rest key

/-- Python dict item assignment d[key] = v: replace the binding in place when
the key is present, append a new binding otherwise. -/
def aset {β : Type} : List (String × β) → String → β → List (String × β)
  | [], key, v => [(key, v)]
  | (k, w) :: rest, key, v =>
    if k = key then (key, v) :: rest else (k, w) :: aset rest key v

/-- The single-quote character used by the Python repr of strings. -/
def sq : String := String.singleton (Char.ofNat 39)

mutual

/-- Python repr(...) of a JSON value.  Scalars and containers follow CPython;
quote-escaping inside string payloads is not modelled (no identifier compared
against in this development contains a quote character). -/
def pyRepr : Json → String
  | .null => "None"
  | .bool true => "True"
  | .bool false => "False"
  | .num n => toString n
  | .str s => sq ++ s ++ sq
  | .arr xs => "[" ++ pyReprSeq xs ++ "]"
  | .obj kvs => "\x7b" ++ pyReprFields kvs ++ "\x7d"

/-- Comma-separated reprs of the elements of a Python list. -/
def pyReprSeq : List Json → String
  | [] => ""
  | [x] => pyRepr x
  | x :: y :: rest => pyRepr x ++ ", " ++ pyReprSeq (y :: rest)

/-- Comma-separated key: value reprs of the items of a Python dict. -/
def pyReprFields : List (String × Json) → String
  | [] => ""
  | [(k, v)] => sq ++ k ++ sq ++ ": " ++ pyRepr v
  | (k, v) :: kv :: rest => sq ++ k ++ sq ++ ": " ++ pyRepr v ++ ", " ++ pyReprFields (kv :: rest)

end

/-- Python str(...) of a JSON value: None/True/False/numbers print bare,
strings print without quotes, containers print via repr. -/
def pyStr : Json → String
  | .null => "None"
  | .bool true => "True"
  | .bool false => "False"
  | .num n => toString n
  | .str s => s
  | .arr xs => pyRepr (.arr xs)
  | .obj kvs => pyRepr (.obj kvs)

/-- Whether a JSON value is a Python dict. -/
def isObj : Json → Bool
  | .obj _ => true
  | _ => false

/-- str(it.get("id")) for a dict record (dict.get defaults to None when the
key is absent).  Total companion of recordIdStr; returns "" on a non-dict,
a case never reached under the all-records-are-dicts hypotheses below. -/
def rawId : Json → String
  | .obj kvs => pyStr ((alookup kvs "id").getD .null)
  | _ => ""

/-- str(it.get("id")) as executed by upsert/delete: calling .get on a
non-dict list item raises AttributeError, modelled as the error branch. -/
def recordIdStr : Json → Except String String
  | .obj kvs => .ok (pyStr ((alookup kvs "id").getD .null))
  | _ => .error "AttributeError"

/-- Observable states of the backing file db/schedules.json: absent, present
but rejected by json.loads, or present and parsed to a JSON value.  An empty
file is read as the text epsilon-or-default, i.e. json.loads("\x7b\x7d"),
hence is the state parsed (obj []). -/
inductive FileState : Type where
  | missing : FileState
  | garbled : FileState
  | parsed (doc : Json) : FileState

namespace ScheduleStore

/-- ScheduleStore._read: a missing file and any read/parse failure yield the
empty collection; a parsed non-dict likewise; a dict whose "schedules" value
is not a list has that value overwritten by []. -/
def read : FileState → Json
  | .missing => .obj [("schedules", .arr [])]
  | .garbled => .obj [("schedules", .arr [])]
  | .parsed doc =>
    match doc with
    | .obj kvs =>
      match alookup kvs "schedules" with
      | some (.arr _) => .obj kvs
      | some _ => .obj (aset kvs "schedules" (.arr []))
      | none => .obj kvs
    | _ => .obj [("schedules", .arr [])]

/-- data.get("schedules", []) on the output of read.  After read the key, if
present, is a list; the non-list fallback [] is unreachable there. -/
def getSchedules : Json → List Json
  | .obj kvs =>
    match alookup kvs "schedules" with
    | some (.arr items) => items
    | some _ => []
    | none => []
  | _ => []

/-- data["schedules"] = items on the output of read (always a dict). -/
def setSchedules : Json → List Json → Json
  | .obj kvs, items => .obj (aset kvs "schedules" (.arr items))
  | j, _ => j

/-- ScheduleStore._write: render the document to a sibling temporary file and
atomically rename it over the target, so the next read parses back exactly
the written document. -/
def write (doc : Json) : FileState := .parsed doc

/-- The raw record list a given file state holds. -/
def itemsOf (fs : FileState) : List Json := getSchedules (read fs)

end ScheduleStore

/-- The pydantic model ScheduleEntry of scheduler.py.  The trigger field is
the Literal "date" | "interval" | "cron"; validation (below) enforces the
membership, the Lean field is a plain String so that the defensive
unsupported-kind branch of _build_trigger stays representable. -/
structure ScheduleEntry : Type where
  id : String
  name : String
  crew : Option String := none
  trigger : String := "date"
  run_at : Option String := none
  interval_seconds : Option Int := none
  cron : Option (List (String × String)) := none
  timezone : Option String := none
  enabled : Bool := true
  inputs : List (String × Json) := []
  created_at : String
  updated_at : String

/-- The closed tag set of the trigger Literal. -/
def triggerKinds : List String := ["date", "interval", "cron"]

/-- Validation of one required str field. -/
def parseStrField (kvs : List (String × Json)) (k : String) : Option String :=
  match alookup kvs k with
  | some (.str s) => some s
  | _ => none

/-- Validation of one Optional[str] field (absent and null mean None). -/
def parseOptStrField (kvs : List (String × Json)) (k : String) : Option (Option String) :=
  match alookup kvs k with
  | none => some none
  | some .null => some none
  | some (.str s) => some (some s)
  | some _ => none

/-- Validation of the Optional[int] field interval_seconds. -/
def parseOptIntField (kvs : List (String × Json)) (k : String) : Option (Option Int) :=
  match alookup kvs k with
  | none => some none
  | some .null => some none
  | some (.num n) => some (some n)
  | some _ => none

/-- One cron item must map a string key to a string expression. -/
def asStrPair : String × Json → Option (String × String)
  | (k, .str v) => some (k, v)
  | _ => none

/-- All items of a cron mapping, each validated by asStrPair. -/
def parseCronItems : List (String × Json) → Option (List (String × String))
  | [] => some []
  | kv :: rest => do
    let p ← asStrPair kv
    let ps ← parseCronItems rest
    some (p :: ps)

/-- Validation of the Optional[Dict[str, str]] field cron. -/
def parseCronField (kvs : List (String × Json)) : Option (Option (List (String × String))) :=
  match alookup kvs "cron" with
  | none => some none
  | some .null => some none
  | some (.obj fields) => (parseCronItems fields).map some
  | some _ => none

/-- Validation of the Literal trigger field, defaulting to "date". -/
def parseTriggerField (kvs : List (String × Json)) : Option String :=
  match alookup kvs "trigger" with
  | none => some "date"
  | some (.str s) => if triggerKinds.contains s then some s else none
  | some _ => none

/-- Validation of the bool field enabled, defaulting to true. -/
def parseEnabledField (kvs : List (String × Json)) : Option Bool :=
  match alookup kvs "enabled" with
  | none => some true
  | some (.bool b) => some b
  | some _ => none

/-- Validation of the Dict[str, Any] field inputs, defaulting to the empty
dict. -/
def parseInputsField (kvs : List (String × Json)) : Option (List (String × Json)) :=
  match alookup kvs "inputs" with
  | none => some []
  | some (.obj fields) => some fields
  | some _ => none

/-- Validation of a timestamp str field whose pydantic default factory is
datetime.utcnow().isoformat(), i.e. the current time of the call. -/
def parseTimeField (now : String) (kvs : List (String × Json)) (k : String) : Option String :=
  match alookup kvs k with
  | none => some now
  | some (.str s) => some s
  | some _ => none

/-- ScheduleEntry.model_validate.  Pydantic lax-mode coercions beyond the
shapes below (numeric strings for ints, 0/1 for bools, ...) play no role in
any record this development reasons about and are left out of the model. -/
def ScheduleEntry.model_validate (now : String) : Json → Option ScheduleEntry
  | .obj kvs => do
    let id ← parseStrField kvs "id"
    let name ← parseStrField kvs "name"
    let crew ← parseOptStrField kvs "crew"
    let trigger ← parseTriggerField kvs
    let run_at ← parseOptStrField kvs "run_at"
    let interval_seconds ← parseOptIntField kvs "interval_seconds"
    let cron ← parseCronField kvs
    let timezone ← parseOptStrField kvs "timezone"
    let enabled ← parseEnabledField kvs
    let inputs ← parseInputsField kvs
    let created_at ← parseTimeField now kvs "created_at"
    let updated_at ← parseTimeField now kvs "updated_at"
    some { id, name, crew, trigger, run_at, interval_seconds, cron, timezone,
           enabled, inputs, created_at, updated_at }
  | _ => none

/-- None-or-string field value of model_dump. -/
def optStrJson : Option String → Json
  | none => .null
  | some s => .str s

/-- ScheduleEntry.model_dump: the dict of all declared fields in declaration
order. -/
def ScheduleEntry.model_dump (e : ScheduleEntry) : Json :=
  .obj [("id", .str e.id), ("name", .str e.name), ("crew", optStrJson e.crew),
        ("trigger", .str e.trigger), ("run_at", optStrJson e.run_at),
        ("interval_seconds",
          match e.interval_seconds with | none => .null | some n => .num n),
        ("cron",
          match e.cron with
          | none => .null
          | some m => .obj (m.map (fun kv => (kv.1, .str kv.2)))),
        ("timezone", optStrJson e.timezone), ("enabled", .bool e.enabled),
        ("inputs", .obj e.inputs),
        ("created_at", .str e.created_at), ("updated_at", .str e.updated_at)]

namespace ScheduleStore

/-- The body of ScheduleStore.list (the code inside its with-lock block):
validate each raw record, silently skipping the ones that fail. -/
def list (now : String) (fs : FileState) : List ScheduleEntry :=
  (itemsOf fs).filterMap (ScheduleEntry.model_validate now)

/-- The scan of the for-loop of ScheduleStore.upsert: replace the first
record whose str(it.get("id")) equals the entry id and stop; report whether a
replacement happened.  A non-dict record reached by the scan raises. -/
def upsertItems (eid : String) (dumped : Json) : List Json → Except String (List Json × Bool)
  | [] => .ok ([], false)
  | it :: rest => do
    let s ← recordIdStr it
    if s = eid then
      .ok (dumped :: rest, true)
    else
      let (tail, replaced) ← upsertItems eid dumped rest
      .ok (it :: tail, replaced)

/-- The body of ScheduleStore.upsert: set updated_at to now on the entry,
replace the matching record or append, write the whole document back, return
the stored entry.  now is the value of datetime.utcnow().isoformat() at the
call. -/
def upsert (now : String) (e : ScheduleEntry) (fs : FileState) :
    Except String (FileState × ScheduleEntry) := do
  let data := read fs
  let items := getSchedules data
  let e' := { e with updated_at := now }
  let (items', replaced) ← upsertItems e'.id e'.model_dump items
  let items'' := if replaced then items' else items' ++ [e'.model_dump]
  .ok (write (setSchedules data items''), e')

/-- The list comprehension of ScheduleStore.delete: keep the records whose
str(it.get("id")) differs from the target id.  A non-dict record raises. -/
def deleteItems (sid : String) : List Json → Except String (List Json)
  | [] => .ok []
  | it :: rest => do
    let s ← recordIdStr it
    let tail ← deleteItems sid rest
    pure (if s = sid then tail else it :: tail)

/-- The body of ScheduleStore.delete: drop the matching records and write
back only if the collection shrank; return whether a removal occurred. -/
def delete (sid : String) (fs : FileState) : Except String (FileState × Bool) := do
  let data := read fs
  let items := getSchedules data
  let newItems ← deleteItems sid items
  if newItems.length = items.length then
    .ok (fs, false)
  else
    .ok (write (setSchedules data newItems), true)

end ScheduleStore

/-- Lock events on the FileLock guarding the store (with self.lock acquires
on entry and releases on exit). -/
inductive LockEvent : Type where
  | acquire : LockEvent
  | release : LockEvent
deriving DecidableEq, Repr

/-- with self.lock: run the body between an acquire and a release of the
cross-process file lock, recording the lock events the call performs. -/
def withLock {α : Type} (body : α) : List LockEvent × α :=
  ([.acquire, .release], body)

namespace ScheduleStore

/-- ScheduleStore.list as written in the source: its body runs inside
with self.lock. -/
def listLocked (now : String) (fs : FileState) : List LockEvent × List ScheduleEntry :=
  withLock (list now fs)

/-- ScheduleStore.upsert as written in the source: body inside with self.lock. -/
def upsertLocked (now : String) (e : ScheduleEntry) (fs : FileState) :
    List LockEvent × Except String (FileState × ScheduleEntry) :=
  withLock (upsert now e fs)

/-- ScheduleStore.delete as written in the source: body inside with self.lock. -/
def deleteLocked (sid : String) (fs : FileState) :
    List LockEvent × Except String (FileState × Bool) :=
  withLock (delete sid fs)

end ScheduleStore

/-- The trigger values _build_trigger constructs (DateTrigger, IntervalTrigger,
CronTrigger of apscheduler, kept abstract as tagged payloads). -/
inductive Trigger : Type where
  | dateT (run_date : String) : Trigger
  | intervalT (seconds : Int) : Trigger
  | cronT (fields : List (String × String)) : Trigger

/-- The trigger kind a built trigger belongs to. -/
def Trigger.kind : Trigger → String
  | .dateT _ => "date"
  | .intervalT _ => "interval"
  | .cronT _ => "cron"

/-- SchedulerService._build_trigger.  fromiso abstracts
datetime.fromisoformat: none models the ValueError raised on an unparseable
string.  Python truthiness: a missing run_at and the empty string both fail
the first guard; a missing interval_seconds fails the guard, as does any
value ≤ 0; a missing cron mapping and the empty mapping both fail the guard
(the comprehension dropping None values is the identity here, cron values
being strings after validation). -/
def buildTrigger (fromiso : String → Option String) (e : ScheduleEntry) :
    Except String Trigger :=
  if e.trigger = "date" then
    match e.run_at with
    | none => .error "date trigger requires run_at"
    | some s =>
      if s = "" then .error "date trigger requires run_at"
      else
        match fromiso s with
        | none => .error ("Invalid isoformat string: " ++ sq ++ s ++ sq)
        | some dt => .ok (.dateT dt)
  else if e.trigger = "interval" then
    match e.interval_seconds with
    | none => .error "interval trigger requires positive interval_seconds"
    | some n =>
      if n ≤ 0 then .error "interval trigger requires positive interval_seconds"
      else .ok (.intervalT n)
  else if e.trigger = "cron" then
    match e.cron with
    | none => .error "cron trigger requires cron field mapping"
    | some [] => .error "cron trigger requires cron field mapping"
    | some fields => .ok (.cronT fields)
  else .error ("Unsupported trigger: " ++ e.trigger)

/-- One job held by the APScheduler engine: its id, trigger and the args the
service passes (the schedule id, crew name and inputs). -/
structure Job : Type where
  id : String
  trigger : Trigger
  crew : Option String
  inputs : List (String × Json)

/-- The scheduler-side state: the engine's job list (in addition order) and
the private known-versions dict id → updated_at used for change detection. -/
structure ServiceState : Type where
  jobs : List Job
  known_versions : List (String × String)

/-- scheduler.get_job(i): the job with the given id, if scheduled. -/
def getJob (jobs : List Job) (i : String) : Option Job :=
  jobs.find? (fun j => j.id == i)

/-- scheduler.remove_job(i). -/
def removeJob (jobs : List Job) (i : String) : List Job :=
  jobs.filter (fun j => j.id != i)

/-- The console message printed when a trigger fails to build (rich markup
included verbatim from the source f-string). -/
def skipMessage (i : String) (err : String) : String :=
  "[yellow]Skipping schedule " ++ i ++ ": invalid trigger (" ++ err ++ ")[/yellow]"

/-- The observable outcome of one reconciliation pass: the new service state,
the ids removed by the cleanup phase, the ids (re)built by the add/update
phase, and the console messages for skipped entries. -/
structure SyncResult : Type where
  state : ServiceState
  removed : List String
  rebuilt : List String
  logs : List String

/-- The ids of the enabled entries (the current_ids set of the source). -/
def enabledIds (entries : List ScheduleEntry) : List String :=
  (entries.filter (fun e => e.enabled)).map (fun e => e.id)

/-- One iteration of the add/update loop of _sync_jobs_from_store over one
entry: disabled entries are skipped; a trigger build failure is logged and
the entry skipped; an unchanged updated_at with a live job short-circuits;
otherwise the job is removed if present, re-added, and the new updated_at
recorded. -/
def syncStep (fromiso : String → Option String) (acc : SyncResult) (e : ScheduleEntry) :
    SyncResult :=
  if !e.enabled then acc
  else
    match buildTrigger fromiso e with
    | .error err => { acc with logs := acc.logs ++ [skipMessage e.id err] }
    | .ok trig =>
      let needs_update := alookup acc.state.known_versions e.id != some e.updated_at
      if !needs_update && (getJob acc.state.jobs e.id).isSome then acc
      else
        let jobs' :=
          if (getJob acc.state.jobs e.id).isSome then removeJob acc.state.jobs e.id
          else acc.state.jobs
        { state :=
            { jobs := jobs' ++ [{ id := e.id, trigger := trig, crew := e.crew,
                                  inputs := e.inputs }],
              known_versions := aset acc.state.known_versions e.id e.updated_at },
          removed := acc.removed,
          rebuilt := acc.rebuilt ++ [e.id],
          logs := acc.logs }

/-- SchedulerService._sync_jobs_from_store on an already-fetched entry list:
first remove every engine job whose id is not an enabled entry id, then run
the add/update loop over the entries. -/
def syncJobs (fromiso : String → Option String) (entries : List ScheduleEntry)
    (st : ServiceState) : SyncResult :=
  let ids := enabledIds entries
  let keep := st.jobs.filter (fun j => ids.contains j.id)
  let removedIds := (st.jobs.filter (fun j => !ids.contains j.id)).map (fun j => j.id)
  entries.foldl (syncStep fromiso)
    { state := { jobs := keep, known_versions := st.known_versions },
      removed := removedIds, rebuilt := [], logs := [] }

/-- The raw id strings of a record list, in order. -/
def rawIds (items : List Json) : List String := items.map rawId

/-- Field access on a dict record. -/
def objField (r : Json) (k : String) : Option Json :=
  match r with
  | .obj kvs => alookup kvs k
  | _ => none

/-- The updated_at field of the first raw record carrying the given id. -/
def updatedAtOf (fs : FileState) (i : String) : Option Json :=
  ((ScheduleStore.itemsOf fs).find? (fun r => rawId r == i)).bind (fun r => objField r "updated_at")

/-- The needle occurs verbatim inside the haystack. -/
def appearsIn (needle hay : String) : Prop := needle.toList <:+: hay.toList

/-- Stated from the spec, for comparison with buildTrigger: a trigger payload
is invalid for its kind when a date entry misses run_at or its run_at does
not parse, an interval entry misses interval_seconds or has it ≤ 0, a cron
entry misses its field mapping or has it empty, or the kind is none of the
three.  The empty run_at string counts as missing, as for the code. -/
def specInvalidTrigger (fromiso : String → Option String) (e : ScheduleEntry) : Prop :=
  (e.trigger = "date" ∧
    (e.run_at = none ∨ e.run_at = some "" ∨ ∃ s, e.run_at = some s ∧ fromiso s = none))
  ∨ (e.trigger = "interval" ∧
    (e.interval_seconds = none ∨ ∃ n, e.interval_seconds = some n ∧ n ≤ 0))
  ∨ (e.trigger = "cron" ∧ (e.cron = none ∨ e.cron = some []))
  ∨ (¬ e.trigger ∈ triggerKinds)

/-- Stated from the spec, for comparison with syncJobs: the ids that "should
be active" are those of the enabled entries whose trigger builds. -/
def specActiveIds (fromiso : String → Option String) (entries : List ScheduleEntry) :
    List String :=
  (entries.filter (fun e => e.enabled && (buildTrigger fromiso e).isOk)).map (fun e => e.id)

/-- A date-triggered sample entry. -/
def sampleDate : ScheduleEntry :=
  { id := "s1", name := "demo", trigger := "date",
    run_at := some "2025-01-01T00:00:00", inputs := [("topic", .str "X")],
    created_at := "2025-01-01T00:00:00", updated_at := "2025-01-01T00:00:00" }

/-- An interval-triggered sample entry. -/
def sampleInterval : ScheduleEntry :=
  { id := "s2", name := "interval-demo", trigger := "interval",
    interval_seconds := some 60,
    created_at := "2025-01-01T00:00:00", updated_at := "2025-01-01T00:00:00" }

/-- A date entry whose run_at is absent: its trigger does not build. -/
def sampleBroken : ScheduleEntry :=
  { id := "s1", name := "demo", trigger := "date", run_at := none,
    created_at := "2025-01-01T00:00:00", updated_at := "2025-01-01T00:00:00" }

/-- A cron sample with the mapping minute 0, every hour. -/
def sampleCron : ScheduleEntry :=
  { id := "c1", name := "cron-demo", trigger := "cron",
    cron := some [("minute", "0"), ("hour", "*")],
    created_at := "2025-01-01T00:00:00", updated_at := "2025-01-01T00:00:00" }

/-- A cron sample with the empty mapping: its trigger does not build. -/
def sampleCronEmpty : ScheduleEntry :=
  { id := "c2", name := "cron-empty", trigger := "cron", cron := some [],
    created_at := "2025-01-01T00:00:00", updated_at := "2025-01-01T00:00:00" }

/-- A parse function for counterexamples that accepts every string. -/
def isoAny : String → Option String := fun s => some s

/-- A service state holding one scheduled job for id s1. -/
def sampleState : ServiceState :=
  { jobs := [{ id := "s1", trigger := .dateT "2024-01-01T00:00:00", crew := none,
               inputs := [] }],
    known_versions := [("s1", "2024-01-01T00:00:00")] }

/-! Helper lemmas shared by the claim theorems. -/

theorem except_bind_ok {ε α β : Type} (a : α) (f : α → Except ε β) :
    (Except.ok a >>= f : Except ε β) = f a := rfl

theorem except_bind_err {ε α β : Type} (e : ε) (f : α → Except ε β) :
    (Except.error e >>= f : Except ε β) = Except.error e := rfl

theorem except_pure {ε α : Type} (a : α) : (pure a : Except ε α) = Except.ok a := rfl

theorem alookup_aset_self {β : Type} (l : List (String × β)) (k : String) (v : β) :
    alookup (aset l k v) k = some v := by
  induction l with
  | nil => simp [aset, alookup]
  | cons hd tl ih =>
    obtain ⟨k0, v0⟩ := hd
    by_cases h : k0 = k
    · subst h; simp [aset, alookup]
    · simp [aset, alookup, h, ih]

theorem alookup_aset_ne {β : Type} (l : List (String × β)) {k k' : String} (v : β)
    (h : k' ≠ k) : alookup (aset l k v) k' = alookup l k' := by
  have hkk : ¬ k = k' := fun he => h he.symm
  induction l with
  | nil => simp [aset, alookup, hkk]
  | cons hd tl ih =>
    obtain ⟨k0, v0⟩ := hd
    by_cases h0 : k0 = k
    · subst h0
      simp [aset, alookup, hkk]
    · simp only [aset, if_neg h0, alookup]
      by_cases h1 : k0 = k'
      · simp [h1]
      · simp [h1, ih]

theorem read_is_obj (fs : FileState) : ∃ kvs, ScheduleStore.read fs = .obj kvs := by
  cases fs with
  | missing => exact ⟨_, rfl⟩
  | garbled => exact ⟨_, rfl⟩
  | parsed doc =>
    cases doc with
    | obj kvs =>
      simp only [ScheduleStore.read]
      cases h : alookup kvs "schedules" with
      | none => exact ⟨_, rfl⟩
      | some v => cases v <;> exact ⟨_, rfl⟩
    | null => exact ⟨_, rfl⟩
    | bool b => exact ⟨_, rfl⟩
    | num n => exact ⟨_, rfl⟩
    | str s => exact ⟨_, rfl⟩
    | arr xs => exact ⟨_, rfl⟩

theorem itemsOf_write (fs : FileState) (items : List Json) :
    ScheduleStore.itemsOf
      (ScheduleStore.write (ScheduleStore.setSchedules (ScheduleStore.read fs) items)) =
      items := by
  obtain ⟨kvs, hk⟩ := read_is_obj fs
  rw [ScheduleStore.itemsOf, hk]
  simp [ScheduleStore.setSchedules, ScheduleStore.write, ScheduleStore.read,
    ScheduleStore.getSchedules, alookup_aset_self]

theorem read_write (fs : FileState) (items : List Json) :
    ScheduleStore.read
      (ScheduleStore.write (ScheduleStore.setSchedules (ScheduleStore.read fs) items)) =
      ScheduleStore.setSchedules (ScheduleStore.read fs) items := by
  obtain ⟨kvs, hk⟩ := read_is_obj fs
  rw [hk]
  simp [ScheduleStore.setSchedules, ScheduleStore.write, ScheduleStore.read,
    alookup_aset_self]

theorem rawId_dump (e : ScheduleEntry) : rawId e.model_dump = e.id := by
  simp [rawId, ScheduleEntry.model_dump, alookup, pyStr]

theorem isObj_dump (e : ScheduleEntry) : isObj e.model_dump = true := rfl

theorem recordIdStr_of_obj {r : Json} (h : isObj r = true) :
    recordIdStr r = .ok (rawId r) := by
  cases r <;> simp_all [isObj, recordIdStr, rawId]

theorem upsertItems_ok {items : List Json} (eid : String) (d : Json)
    (hobj : ∀ r ∈ items, isObj r = true) :
    ∃ out, ScheduleStore.upsertItems eid d items = .ok out := by
  induction items with
  | nil => exact ⟨_, rfl⟩
  | cons it rest ih =>
    have hit := hobj it (List.mem_cons_self it rest)
    obtain ⟨out, hout⟩ := ih (fun r hr => hobj r (List.mem_cons_of_mem it hr))
    by_cases h : rawId it = eid
    · exact ⟨(d :: rest, true), by
        simp [ScheduleStore.upsertItems, recordIdStr_of_obj hit, h, except_bind_ok]⟩
    · exact ⟨(it :: out.1, out.2), by
        simp [ScheduleStore.upsertItems, recordIdStr_of_obj hit, h, hout, except_bind_ok]⟩

theorem upsertItems_false {eid : String} {d : Json} {items items' : List Json}
    (h : ScheduleStore.upsertItems eid d items = .ok (items', false)) :
    items' = items ∧ ∀ r ∈ items, isObj r = true ∧ rawId r ≠ eid := by
  induction items generalizing items' with
  | nil =>
    simp only [ScheduleStore.upsertItems] at h
    cases h
    exact ⟨rfl, by simp⟩
  | cons it rest ih =>
    simp only [ScheduleStore.upsertItems] at h
    cases hrec : recordIdStr it with
    | error msg => rw [hrec, except_bind_err] at h; exact absurd h (by simp)
    | ok s =>
      have hobj : isObj it = true := by
        cases it <;> simp_all [recordIdStr, isObj]
      have hs : s = rawId it := by
        rw [recordIdStr_of_obj hobj] at hrec
        cases hrec; rfl
      subst hs
      rw [hrec, except_bind_ok] at h
      by_cases heq : rawId it = eid
      · simp [heq] at h
      · rw [if_neg heq] at h
        cases htl : ScheduleStore.upsertItems eid d rest with
        | error msg => rw [htl, except_bind_err] at h; exact absurd h (by simp)
        | ok out =>
          obtain ⟨tl, b⟩ := out
          rw [htl, except_bind_ok] at h
          simp only [Except.ok.injEq, Prod.mk.injEq] at h
          obtain ⟨h1, h2⟩ := h
          subst h2
          obtain ⟨h3, h4⟩ := ih htl
          subst h3
          refine ⟨h1.symm ▸ rfl, ?_⟩
          intro r hr
          rcases List.mem_cons.mp hr with h5 | h5
          · subst h5; exact ⟨hobj, heq⟩
          · exact h4 r h5

theorem upsertItems_true {eid : String} {d : Json} {items items' : List Json}
    (h : ScheduleStore.upsertItems eid d items = .ok (items', true)) :
    ∃ pre r0 post, items = pre ++ r0 :: post ∧ items' = pre ++ d :: post ∧
      (∀ r ∈ pre, isObj r = true ∧ rawId r ≠ eid) ∧ isObj r0 = true ∧ rawId r0 = eid := by
  induction items generalizing items' with
  | nil =>
    simp only [ScheduleStore.upsertItems] at h
    cases h
  | cons it rest ih =>
    simp only [ScheduleStore.upsertItems] at h
    cases hrec : recordIdStr it with
    | error msg => rw [hrec, except_bind_err] at h; exact absurd h (by simp)
    | ok s =>
      have hobj : isObj it = true := by
        cases it <;> simp_all [recordIdStr, isObj]
      have hs : s = rawId it := by
        rw [recordIdStr_of_obj hobj] at hrec
        cases hrec; rfl
      subst hs
      rw [hrec, except_bind_ok] at h
      by_cases heq : rawId it = eid
      · rw [if_pos heq] at h
        cases h
        exact ⟨[], it, rest, rfl, rfl, by simp, hobj, heq⟩
      · rw [if_neg heq] at h
        cases htl : ScheduleStore.upsertItems eid d rest with
        | error msg => rw [htl, except_bind_err] at h; exact absurd h (by simp)
        | ok out =>
          obtain ⟨tl, b⟩ := out
          rw [htl, except_bind_ok] at h
          simp only [Except.ok.injEq, Prod.mk.injEq] at h
          obtain ⟨h1, h2⟩ := h
          subst h2
          obtain ⟨pre, r0, post, hsplit, htail, hpre, hr0, hid⟩ := ih htl
          subst hsplit
          refine ⟨it :: pre, r0, post, rfl, ?_, ?_, hr0, hid⟩
          · rw [← h1, htail]; rfl
          · intro r hr
            rcases List.mem_cons.mp hr with h5 | h5
            · subst h5; exact ⟨hobj, heq⟩
            · exact hpre r h5

theorem deleteItems_ok {items : List Json} (sid : String)
    (hobj : ∀ r ∈ items, isObj r = true) :
    ScheduleStore.deleteItems sid items =
      .ok (items.filter (fun r => !(rawId r == sid))) := by
  induction items with
  | nil => rfl
  | cons it rest ih =>
    have hit := hobj it (List.mem_cons_self it rest)
    have ihr := ih (fun r hr => hobj r (List.mem_cons_of_mem it hr))
    simp only [ScheduleStore.deleteItems, recordIdStr_of_obj hit, except_bind_ok, ihr,
      except_pure, List.filter_cons]
    by_cases h : rawId it = sid
    · simp [h]
    · simp [h]

theorem filter_length_eq_iff {α : Type} (p : α → Bool) (l : List α) :
    (l.filter p).length = l.length ↔ ∀ x ∈ l, p x = true := by
  induction l with
  | nil => simp
  | cons x rest ih =>
    by_cases h : p x = true
    · simp [List.filter_cons, h, ih]
    · have hle := List.length_filter_le p rest
      simp only [List.filter_cons, h]
      constructor
      · intro hlen
        rw [if_neg (by simp [h])] at hlen
        simp only [List.length_cons] at hlen
        omega
      · intro hall
        exact absurd (hall x (List.mem_cons_self x rest)) h

theorem find?_no_match_append {α : Type} (l1 l2 : List α) (p : α → Bool)
    (h : ∀ x ∈ l1, p x = false) : (l1 ++ l2).find? p = l2.find? p := by
  induction l1 with
  | nil => rfl
  | cons x rest ih =>
    have hx := h x (List.mem_cons_self x rest)
    simp only [List.cons_append, List.find?_cons, hx]
    exact ih (fun y hy => h y (List.mem_cons_of_mem x hy))

theorem find?_filter_of_imp {α : Type} (p q : α → Bool) (l : List α)
    (h : ∀ x, p x = true → q x = true) : (l.filter q).find? p = l.find? p := by
  induction l with
  | nil => rfl
  | cons x rest ih =>
    by_cases hq : q x = true
    · simp only [List.filter_cons, hq, if_pos rfl, List.find?_cons]
      cases hp : p x <;> simp [hp, ih]
    · have hp : p x = false := by
        cases hpx : p x
        · rfl
        · exact absurd (h x hpx) hq
      simp only [List.filter_cons, hq]
      rw [if_neg (by simp [hq])]
      simp only [List.find?_cons, hp]
      exact ih

theorem parseCronItems_map (m : List (String × String)) :
    parseCronItems (m.map (fun kv => (kv.1, Json.str kv.2))) = some m := by
  induction m with
  | nil => rfl
  | cons kv rest ih =>
    obtain ⟨k, v⟩ := kv
    simp [parseCronItems, ih, asStrPair]

theorem option_bind_eq_some {α β : Type} (o : Option α) (f : α → Option β) (b : β) :
    (o >>= f) = some b ↔ ∃ a, o = some a ∧ f a = some b := by
  cases o <;> simp

theorem validate_dump (now : String) (e : ScheduleEntry)
    (h : e.trigger ∈ triggerKinds) :
    ScheduleEntry.model_validate now e.model_dump = some e := by
  obtain ⟨i, nm, cr, tr, ra, isec, cro, tz, en, inp, ca, ua⟩ := e
  simp only [triggerKinds, List.mem_cons, List.not_mem_nil, or_false] at h
  have hcontains : triggerKinds.contains tr = true := by
    rcases h with h | h | h <;> simp [h, triggerKinds]
  simp only [ScheduleEntry.model_dump, ScheduleEntry.model_validate, alookup,
    parseStrField, parseOptStrField, parseOptIntField, parseCronField,
    parseTriggerField, parseEnabledField, parseInputsField, parseTimeField]
  have hmem : tr ∈ triggerKinds := by
    rcases h with h | h | h <;> simp [h, triggerKinds]
  cases cr <;> cases ra <;> cases isec <;> cases cro <;> cases tz <;>
    simp [optStrJson, hcontains, hmem, parseCronItems_map, Option.bind]

theorem validate_id {now : String} {r : Json} {x : ScheduleEntry}
    (h : ScheduleEntry.model_validate now r = some x) :
    isObj r = true ∧ rawId r = x.id := by
  cases r with
  | obj kvs =>
    refine ⟨rfl, ?_⟩
    simp only [ScheduleEntry.model_validate, option_bind_eq_some] at h
    obtain ⟨i, hi, h⟩ := h
    have hx : x.id = i := by
      obtain ⟨a2, h2, h⟩ := h
      obtain ⟨a3, h3, h⟩ := h
      obtain ⟨a4, h4, h⟩ := h
      obtain ⟨a5, h5, h⟩ := h
      obtain ⟨a6, h6, h⟩ := h
      obtain ⟨a7, h7, h⟩ := h
      obtain ⟨a8, h8, h⟩ := h
      obtain ⟨a9, h9, h⟩ := h
      obtain ⟨a10, h10, h⟩ := h
      obtain ⟨a11, h11, h⟩ := h
      obtain ⟨a12, h12, h⟩ := h
      cases h
      rfl
    rw [hx]
    simp only [parseStrField] at hi
    cases halook : alookup kvs "id" with
    | none => rw [halook] at hi; cases hi
    | some v =>
      rw [halook] at hi
      cases v <;> simp_all [rawId, pyStr]
  | null => simp [ScheduleEntry.model_validate] at h
  | bool b => simp [ScheduleEntry.model_validate] at h
  | num n => simp [ScheduleEntry.model_validate] at h
  | str s => simp [ScheduleEntry.model_validate] at h
  | arr xs => simp [ScheduleEntry.model_validate] at h

theorem filterMap_validate_filter (now i : String) (items : List Json) :
    ((items.filterMap (ScheduleEntry.model_validate now)).filter (fun x => x.id == i)) =
      ((items.filter (fun r => rawId r == i)).filterMap
        (ScheduleEntry.model_validate now)) := by
  induction items with
  | nil => rfl
  | cons r rest ih =>
    cases hv : ScheduleEntry.model_validate now r with
    | none =>
      by_cases hm : rawId r == i
      · simp [List.filterMap_cons, List.filter_cons, hv, hm, ih]
      · simp only [List.filterMap_cons, List.filter_cons, hv]
        rw [if_neg (by simp_all)]
        exact ih
    | some x =>
      have hid := (validate_id hv).2
      by_cases hm : x.id = i
      · simp [List.filterMap_cons, List.filter_cons, hv, hm, hid, ih]
      · simp only [List.filterMap_cons, List.filter_cons, hv]
        rw [if_neg (by simp [hm]), if_neg (by simp [hid, hm])]
        exact ih

theorem set_updated_at_id (e : ScheduleEntry) (t : String) :
    ({ e with updated_at := t } : ScheduleEntry).id = e.id := rfl

theorem set_updated_at_trigger (e : ScheduleEntry) (t : String) :
    ({ e with updated_at := t } : ScheduleEntry).trigger = e.trigger := rfl

theorem set_updated_at_val (e : ScheduleEntry) (t : String) :
    ({ e with updated_at := t } : ScheduleEntry).updated_at = t := rfl

theorem rawId_dump_set (e : ScheduleEntry) (t : String) :
    rawId (ScheduleEntry.model_dump { e with updated_at := t }) = e.id := by
  rw [rawId_dump, set_updated_at_id]

theorem write_objField_ne (fs : FileState) (items : List Json) (k : String)
    (hk : k ≠ "schedules") :
    objField (ScheduleStore.read
        (ScheduleStore.write (ScheduleStore.setSchedules (ScheduleStore.read fs) items))) k =
      objField (ScheduleStore.read fs) k := by
  obtain ⟨kvs, hkv⟩ := read_is_obj fs
  rw [read_write, hkv]
  simp [ScheduleStore.setSchedules, objField, alookup_aset_ne _ _ hk]

theorem read_objField_ne (kvs : List (String × Json)) (k : String)
    (hk : k ≠ "schedules") :
    objField (ScheduleStore.read (.parsed (.obj kvs))) k = alookup kvs k := by
  simp only [ScheduleStore.read]
  cases h : alookup kvs "schedules" with
  | none => simp [objField]
  | some v =>
    cases v <;> simp [objField, alookup_aset_ne _ _ hk]

theorem upsert_char (now : String) (e : ScheduleEntry) (fs : FileState)
    (hobj : ∀ r ∈ ScheduleStore.itemsOf fs, isObj r = true) :
    ∃ fs', ScheduleStore.upsert now e fs = .ok (fs', { e with updated_at := now }) ∧
      (∀ k, k ≠ "schedules" →
        objField (ScheduleStore.read fs') k = objField (ScheduleStore.read fs) k) ∧
      ((∃ pre r0 post,
          ScheduleStore.itemsOf fs = pre ++ r0 :: post ∧
          ScheduleStore.itemsOf fs' =
            pre ++ ScheduleEntry.model_dump { e with updated_at := now } :: post ∧
          (∀ r ∈ pre, isObj r = true ∧ rawId r ≠ e.id) ∧
          isObj r0 = true ∧ rawId r0 = e.id) ∨
       ((∀ r ∈ ScheduleStore.itemsOf fs, rawId r ≠ e.id) ∧
        ScheduleStore.itemsOf fs' =
          ScheduleStore.itemsOf fs ++
            [ScheduleEntry.model_dump { e with updated_at := now }])) := by
  obtain ⟨⟨items', b⟩, hout⟩ :=
    @upsertItems_ok (ScheduleStore.itemsOf fs) e.id
      (ScheduleEntry.model_dump { e with updated_at := now }) hobj
  have hout2 : ScheduleStore.upsertItems e.id
      (ScheduleEntry.model_dump { e with updated_at := now })
      (ScheduleStore.getSchedules (ScheduleStore.read fs)) = .ok (items', b) := hout
  cases b with
  | false =>
    obtain ⟨heq, hno⟩ := upsertItems_false hout
    subst heq
    refine ⟨_, ?_, fun k hk => write_objField_ne fs _ k hk,
      Or.inr ⟨fun r hr => (hno r hr).2, itemsOf_write fs _⟩⟩
    simp only [ScheduleStore.upsert, set_updated_at_id]
    rw [hout2, except_bind_ok]
    simp [ScheduleStore.itemsOf]
  | true =>
    obtain ⟨pre, r0, post, hsplit, hitems, hpre, hr0, hid⟩ := upsertItems_true hout
    refine ⟨ScheduleStore.write (ScheduleStore.setSchedules (ScheduleStore.read fs) items'),
      ?_, fun k hk => write_objField_ne fs _ k hk,
      Or.inl ⟨pre, r0, post, hsplit, ?_, hpre, hr0, hid⟩⟩
    · simp only [ScheduleStore.upsert, set_updated_at_id]
      rw [hout2, except_bind_ok]
      simp
    · rw [itemsOf_write fs _, hitems]

theorem upsert_preserves_objs {now : String} {e : ScheduleEntry} {fs fs' : FileState}
    {e0 : ScheduleEntry} (hobj : ∀ r ∈ ScheduleStore.itemsOf fs, isObj r = true)
    (h : ScheduleStore.upsert now e fs = .ok (fs', e0)) :
    ∀ r ∈ ScheduleStore.itemsOf fs', isObj r = true := by
  obtain ⟨fs1, hrun, hframe, hchar⟩ := upsert_char now e fs hobj
  rw [hrun] at h
  cases h
  rcases hchar with ⟨pre, r0, post, hsplit, hitems, hpre, hr0, hid⟩ | ⟨hno, hitems⟩
  · intro r hr
    rw [hitems] at hr
    rcases List.mem_append.mp hr with h1 | h1
    · exact (hpre r h1).1
    · rcases List.mem_cons.mp h1 with h2 | h2
      · subst h2; exact isObj_dump _
      · have hmem : r ∈ ScheduleStore.itemsOf fs := by
          rw [hsplit]
          exact List.mem_append.mpr (Or.inr (List.mem_cons_of_mem r0 h2))
        exact hobj r hmem
  · intro r hr
    rw [hitems] at hr
    rcases List.mem_append.mp hr with h1 | h1
    · exact hobj r h1
    · rcases List.mem_singleton.mp h1 with rfl
      exact isObj_dump _

theorem upsert_preserves_nodup {now : String} {e : ScheduleEntry} {fs fs' : FileState}
    {e0 : ScheduleEntry} (hobj : ∀ r ∈ ScheduleStore.itemsOf fs, isObj r = true)
    (hnd : (rawIds (ScheduleStore.itemsOf fs)).Nodup)
    (h : ScheduleStore.upsert now e fs = .ok (fs', e0)) :
    (rawIds (ScheduleStore.itemsOf fs')).Nodup := by
  obtain ⟨fs1, hrun, hframe, hchar⟩ := upsert_char now e fs hobj
  rw [hrun] at h
  cases h
  rcases hchar with ⟨pre, r0, post, hsplit, hitems, hpre, hr0, hid⟩ | ⟨hno, hitems⟩
  · have hsame : rawIds (ScheduleStore.itemsOf fs') = rawIds (ScheduleStore.itemsOf fs) := by
      rw [hitems, hsplit]
      simp [rawIds, rawId_dump_set, hid]
    rw [hsame]
    exact hnd
  · rw [hitems]
    have hnotin : e.id ∉ rawIds (ScheduleStore.itemsOf fs) := by
      intro hmem
      obtain ⟨r, hr, hre⟩ := List.mem_map.mp hmem
      exact hno r hr hre
    simp only [rawIds, List.map_append, List.map_cons, List.map_nil]
    rw [rawId_dump_set]
    exact List.Nodup.append hnd (List.nodup_singleton _)
      (by intro a ha hb
          rcases List.mem_singleton.mp hb with rfl
          exact hnotin ha)

theorem upsert_items_filter {now : String} {e : ScheduleEntry} {fs fs' : FileState}
    {e0 : ScheduleEntry} (hobj : ∀ r ∈ ScheduleStore.itemsOf fs, isObj r = true)
    (hnd : (rawIds (ScheduleStore.itemsOf fs)).Nodup)
    (h : ScheduleStore.upsert now e fs = .ok (fs', e0)) :
    (ScheduleStore.itemsOf fs').filter (fun r => rawId r == e.id) =
      [ScheduleEntry.model_dump { e with updated_at := now }] ∧
    (ScheduleStore.itemsOf fs').filter (fun r => !(rawId r == e.id)) =
      (ScheduleStore.itemsOf fs).filter (fun r => !(rawId r == e.id)) := by
  obtain ⟨fs1, hrun, hframe, hchar⟩ := upsert_char now e fs hobj
  rw [hrun] at h
  cases h
  rcases hchar with ⟨pre, r0, post, hsplit, hitems, hpre, hr0, hid⟩ | ⟨hno, hitems⟩
  · have hprene : ∀ r ∈ pre, ¬(rawId r == e.id) = true := by
      intro r hr
      simp [(hpre r hr).2]
    have hpostne : ∀ r ∈ post, rawId r ≠ e.id := by
      rw [hsplit] at hnd
      simp only [rawIds, List.map_append, List.map_cons] at hnd
      have h2 := (List.nodup_append.mp hnd).2.1
      have h3 := (List.nodup_cons.mp h2).1
      rw [hid] at h3
      intro r hr he
      exact h3 (List.mem_map.mpr ⟨r, hr, he⟩)
    have hpre0 : pre.filter (fun r => rawId r == e.id) = [] :=
      List.filter_eq_nil_iff.mpr hprene
    have hpost0 : post.filter (fun r => rawId r == e.id) = [] :=
      List.filter_eq_nil_iff.mpr (by intro r hr; simp [hpostne r hr])
    constructor
    · rw [hitems, List.filter_append, hpre0]
      simp [List.filter_cons, rawId_dump_set, hpost0]
    · rw [hitems, hsplit, List.filter_append, List.filter_append]
      simp [List.filter_cons, rawId_dump_set, hid]
  · have hall : ∀ r ∈ ScheduleStore.itemsOf fs, ¬(rawId r == e.id) = true := by
      intro r hr
      simp [hno r hr]
    constructor
    · rw [hitems, List.filter_append, List.filter_eq_nil_iff.mpr hall]
      simp [rawId_dump_set]
    · rw [hitems, List.filter_append]
      simp only [List.filter_cons, List.filter_nil]
      rw [if_neg (by simp [rawId_dump_set])]
      simp

theorem delete_ok (sid : String) (fs : FileState)
    (hobj : ∀ r ∈ ScheduleStore.itemsOf fs, isObj r = true) :
    ∃ fs' chg, ScheduleStore.delete sid fs = .ok (fs', chg) ∧
      ScheduleStore.itemsOf fs' =
        (ScheduleStore.itemsOf fs).filter (fun r => !(rawId r == sid)) ∧
      (chg = true ↔ ∃ r ∈ ScheduleStore.itemsOf fs, rawId r = sid) ∧
      (chg = false → fs' = fs) ∧
      (∀ k, k ≠ "schedules" →
        objField (ScheduleStore.read fs') k = objField (ScheduleStore.read fs) k) := by
  simp only [ScheduleStore.itemsOf] at hobj ⊢
  have hdel :=
    @deleteItems_ok (ScheduleStore.getSchedules (ScheduleStore.read fs)) sid hobj
  by_cases hlen :
      ((ScheduleStore.getSchedules (ScheduleStore.read fs)).filter
        (fun r => !(rawId r == sid))).length =
        (ScheduleStore.getSchedules (ScheduleStore.read fs)).length
  · have hall := (filter_length_eq_iff _ _).mp hlen
    have hfeq : (ScheduleStore.getSchedules (ScheduleStore.read fs)).filter
        (fun r => !(rawId r == sid)) =
        ScheduleStore.getSchedules (ScheduleStore.read fs) := List.filter_eq_self.mpr hall
    refine ⟨fs, false, ?_, ?_, ?_, fun _ => rfl, fun k hk => rfl⟩
    · simp only [ScheduleStore.delete]
      rw [hdel, except_bind_ok, if_pos hlen]
    · rw [hfeq]
    · refine iff_of_false (by simp) ?_
      rintro ⟨r, hr, hre⟩
      have h5 := hall r hr
      simp [hre] at h5
  · refine ⟨ScheduleStore.write (ScheduleStore.setSchedules (ScheduleStore.read fs)
      ((ScheduleStore.getSchedules (ScheduleStore.read fs)).filter
        (fun r => !(rawId r == sid)))), true, ?_, ?_, ?_, by simp,
      fun k hk => write_objField_ne fs _ k hk⟩
    · simp only [ScheduleStore.delete]
      rw [hdel, except_bind_ok, if_neg hlen]
    · exact itemsOf_write fs _
    · refine iff_of_true rfl ?_
      by_contra hno
      push_neg at hno
      exact hlen ((filter_length_eq_iff _ _).mpr
        (fun r hr => by simp [hno r hr]))

theorem contains_iff (l : List String) (a : String) : l.contains a = true ↔ a ∈ l := by
  induction l with
  | nil => simp
  | cons x rest ih =>
    by_cases h : x = a
    · simp [h]
    · have h2 : ¬ a = x := fun he => h he.symm
      simp [List.contains_cons, ih, h2, fun he : a == x => h2 (by simpa using he)]

theorem getJob_isSome_iff (jobs : List Job) (i : String) :
    (getJob jobs i).isSome = true ↔ ∃ j ∈ jobs, j.id = i := by
  simp [getJob, List.find?_isSome]

theorem syncStep_disabled (f : String → Option String) (acc : SyncResult)
    (e : ScheduleEntry) (h : e.enabled = false) : syncStep f acc e = acc := by
  simp [syncStep, h]

theorem syncStep_error (f : String → Option String) (acc : SyncResult)
    (e : ScheduleEntry) (err : String) (he : e.enabled = true)
    (hb : buildTrigger f e = .error err) :
    syncStep f acc e = { acc with logs := acc.logs ++ [skipMessage e.id err] } := by
  simp [syncStep, he, hb]

theorem syncStep_skip (f : String → Option String) (acc : SyncResult)
    (e : ScheduleEntry) (t : Trigger) (he : e.enabled = true)
    (hb : buildTrigger f e = .ok t)
    (hk : alookup acc.state.known_versions e.id = some e.updated_at)
    (hj : (getJob acc.state.jobs e.id).isSome = true) :
    syncStep f acc e = acc := by
  simp [syncStep, he, hb, hk, hj]

theorem syncStep_sets (f : String → Option String) (acc : SyncResult)
    (e : ScheduleEntry) (t : Trigger) (he : e.enabled = true)
    (hb : buildTrigger f e = .ok t) :
    alookup (syncStep f acc e).state.known_versions e.id = some e.updated_at ∧
    (getJob (syncStep f acc e).state.jobs e.id).isSome = true := by
  simp only [syncStep, he, Bool.not_true, Bool.false_eq_true, if_false, hb]
  by_cases hc : (!(alookup acc.state.known_versions e.id != some e.updated_at) &&
      (getJob acc.state.jobs e.id).isSome) = true
  · rw [if_pos hc]
    have h1 := (Bool.and_eq_true _ _).mp hc
    exact ⟨by simpa using h1.1, h1.2⟩
  · rw [if_neg hc]
    refine ⟨alookup_aset_self _ _ _, ?_⟩
    rw [getJob_isSome_iff]
    exact ⟨_, List.mem_append.mpr (Or.inr (List.mem_singleton.mpr rfl)), rfl⟩

theorem syncStep_preserves_other (f : String → Option String) (acc : SyncResult)
    (x : ScheduleEntry) (i : String) (u : String) (hne : x.id ≠ i)
    (h1 : alookup acc.state.known_versions i = some u)
    (h2 : ∃ j ∈ acc.state.jobs, j.id = i) :
    alookup (syncStep f acc x).state.known_versions i = some u ∧
    ∃ j ∈ (syncStep f acc x).state.jobs, j.id = i := by
  by_cases hen : x.enabled = true
  · cases hb : buildTrigger f x with
    | error err => rw [syncStep_error f acc x err hen hb]; exact ⟨h1, h2⟩
    | ok t =>
      simp only [syncStep, hen, Bool.not_true, Bool.false_eq_true, if_false, hb]
      by_cases hc : (!(alookup acc.state.known_versions x.id != some x.updated_at) &&
          (getJob acc.state.jobs x.id).isSome) = true
      · rw [if_pos hc]; exact ⟨h1, h2⟩
      · rw [if_neg hc]
        constructor
        · rw [alookup_aset_ne _ _ (fun he => hne he.symm)]
          exact h1
        · obtain ⟨j, hj, hij⟩ := h2
          refine ⟨j, List.mem_append.mpr (Or.inl ?_), hij⟩
          by_cases hpres : (getJob acc.state.jobs x.id).isSome = true
          · rw [if_pos hpres]
            refine List.mem_filter.mpr ⟨hj, ?_⟩
            simp [hij]
            exact fun he => hne he.symm
          · rw [if_neg hpres]; exact hj
  · rw [syncStep_disabled f acc x (by simpa using hen)]
    exact ⟨h1, h2⟩

theorem syncStep_jobs_mono (f : String → Option String) (acc : SyncResult)
    (x : ScheduleEntry) (i : String) (h : ∃ j ∈ acc.state.jobs, j.id = i) :
    ∃ j ∈ (syncStep f acc x).state.jobs, j.id = i := by
  by_cases hen : x.enabled = true
  · cases hb : buildTrigger f x with
    | error err => rw [syncStep_error f acc x err hen hb]; exact h
    | ok t =>
      simp only [syncStep, hen, Bool.not_true, Bool.false_eq_true, if_false, hb]
      by_cases hc : (!(alookup acc.state.known_versions x.id != some x.updated_at) &&
          (getJob acc.state.jobs x.id).isSome) = true
      · rw [if_pos hc]; exact h
      · rw [if_neg hc]
        by_cases hxi : x.id = i
        · exact ⟨_, List.mem_append.mpr (Or.inr (List.mem_singleton.mpr rfl)), hxi⟩
        · obtain ⟨j, hj, hij⟩ := h
          refine ⟨j, List.mem_append.mpr (Or.inl ?_), hij⟩
          by_cases hpres : (getJob acc.state.jobs x.id).isSome = true
          · rw [if_pos hpres]
            refine List.mem_filter.mpr ⟨hj, ?_⟩
            simp [hij]
            exact fun he => hxi he.symm
          · rw [if_neg hpres]; exact hj
  · rw [syncStep_disabled f acc x (by simpa using hen)]
    exact h

theorem syncFold_jobs_mono (f : String → Option String) (l : List ScheduleEntry)
    (acc : SyncResult) (i : String) (h : ∃ j ∈ acc.state.jobs, j.id = i) :
    ∃ j ∈ (l.foldl (syncStep f) acc).state.jobs, j.id = i := by
  induction l generalizing acc with
  | nil => exact h
  | cons x rest ih => exact ih _ (syncStep_jobs_mono f acc x i h)

theorem syncFold_establishes (f : String → Option String) (l : List ScheduleEntry)
    (acc : SyncResult) (e : ScheduleEntry) (he : e ∈ l) (hen : e.enabled = true)
    (t : Trigger) (hb : buildTrigger f e = .ok t) :
    ∃ j ∈ (l.foldl (syncStep f) acc).state.jobs, j.id = e.id := by
  induction l generalizing acc with
  | nil => cases he
  | cons x rest ih =>
    rcases List.mem_cons.mp he with h0 | h0
    · subst h0
      refine syncFold_jobs_mono f rest _ e.id ?_
      rw [← getJob_isSome_iff]
      exact (syncStep_sets f acc e t hen hb).2
    · exact ih _ h0

theorem syncFold_known_job (f : String → Option String) (l : List ScheduleEntry)
    (acc : SyncResult) (hnd : (l.map (fun e => e.id)).Nodup)
    (e : ScheduleEntry) (he : e ∈ l) (hen : e.enabled = true)
    (t : Trigger) (hb : buildTrigger f e = .ok t) :
    alookup (l.foldl (syncStep f) acc).state.known_versions e.id = some e.updated_at ∧
    (getJob (l.foldl (syncStep f) acc).state.jobs e.id).isSome = true := by
  induction l generalizing acc with
  | nil => cases he
  | cons x rest ih =>
    rcases List.mem_cons.mp he with h0 | h0
    · subst h0
      have hset := syncStep_sets f acc e t hen hb
      have hrest : ∀ x2 ∈ rest, x2.id ≠ e.id := by
        simp only [List.map_cons, List.nodup_cons] at hnd
        intro x2 hx2 heq
        exact hnd.1 (List.mem_map.mpr ⟨x2, hx2, heq⟩)
      have hpres : ∀ (rest2 : List ScheduleEntry) (acc2 : SyncResult),
          (∀ x2 ∈ rest2, x2.id ≠ e.id) →
          alookup acc2.state.known_versions e.id = some e.updated_at →
          (∃ j ∈ acc2.state.jobs, j.id = e.id) →
          alookup (rest2.foldl (syncStep f) acc2).state.known_versions e.id =
            some e.updated_at ∧
          ∃ j ∈ (rest2.foldl (syncStep f) acc2).state.jobs, j.id = e.id := by
        intro rest2
        induction rest2 with
        | nil => exact fun acc2 _ h1 h2 => ⟨h1, h2⟩
        | cons y ys ih2 =>
          intro acc2 hys h1 h2
          have hstep := syncStep_preserves_other f acc2 y e.id e.updated_at
            (hys y (List.mem_cons_self y ys)) h1 h2
          exact ih2 _ (fun z hz => hys z (List.mem_cons_of_mem y hz)) hstep.1 hstep.2
      have hj2 : ∃ j ∈ (syncStep f acc e).state.jobs, j.id = e.id :=
        (getJob_isSome_iff _ _).mp hset.2
      obtain ⟨hk3, hj3⟩ := hpres rest (syncStep f acc e) hrest hset.1 hj2
      exact ⟨hk3, (getJob_isSome_iff _ _).mpr hj3⟩
    · have hnd2 : (rest.map (fun e => e.id)).Nodup := by
        simp only [List.map_cons, List.nodup_cons] at hnd
        exact hnd.2
      exact ih _ hnd2 h0

theorem syncFold_noop (f : String → Option String) (l : List ScheduleEntry)
    (acc : SyncResult)
    (hinv : ∀ e ∈ l, e.enabled = true → ∀ t, buildTrigger f e = .ok t →
      alookup acc.state.known_versions e.id = some e.updated_at ∧
      (getJob acc.state.jobs e.id).isSome = true) :
    (l.foldl (syncStep f) acc).state = acc.state ∧
    (l.foldl (syncStep f) acc).removed = acc.removed ∧
    (l.foldl (syncStep f) acc).rebuilt = acc.rebuilt := by
  induction l generalizing acc with
  | nil => exact ⟨rfl, rfl, rfl⟩
  | cons x rest ih =>
    have hstep : (syncStep f acc x).state = acc.state ∧
        (syncStep f acc x).removed = acc.removed ∧
        (syncStep f acc x).rebuilt = acc.rebuilt := by
      by_cases hen : x.enabled = true
      · cases hb : buildTrigger f x with
        | error err =>
          rw [syncStep_error f acc x err hen hb]
          exact ⟨rfl, rfl, rfl⟩
        | ok t =>
          obtain ⟨h1, h2⟩ := hinv x (List.mem_cons_self x rest) hen t hb
          rw [syncStep_skip f acc x t hen hb h1 h2]
          exact ⟨rfl, rfl, rfl⟩
      · rw [syncStep_disabled f acc x (by simpa using hen)]
        exact ⟨rfl, rfl, rfl⟩
    have hinv2 : ∀ e ∈ rest, e.enabled = true → ∀ t, buildTrigger f e = .ok t →
        alookup (syncStep f acc x).state.known_versions e.id = some e.updated_at ∧
        (getJob (syncStep f acc x).state.jobs e.id).isSome = true := by
      intro e he2 hen2 t2 hb2
      rw [hstep.1]
      exact hinv e (List.mem_cons_of_mem x he2) hen2 t2 hb2
    obtain ⟨ha, hbr, hc⟩ := ih _ hinv2
    simp only [List.foldl_cons]
    exact ⟨ha.trans hstep.1, hbr.trans hstep.2.1, hc.trans hstep.2.2⟩

theorem syncStep_jobs_enabled (f : String → Option String) (acc : SyncResult)
    (x : ScheduleEntry) (P : String → Prop)
    (hP : ∀ j ∈ acc.state.jobs, P j.id) (hx : x.enabled = true → P x.id) :
    ∀ j ∈ (syncStep f acc x).state.jobs, P j.id := by
  by_cases hen : x.enabled = true
  · cases hb : buildTrigger f x with
    | error err => rw [syncStep_error f acc x err hen hb]; exact hP
    | ok t =>
      simp only [syncStep, hen, Bool.not_true, Bool.false_eq_true, if_false, hb]
      by_cases hc : (!(alookup acc.state.known_versions x.id != some x.updated_at) &&
          (getJob acc.state.jobs x.id).isSome) = true
      · rw [if_pos hc]; exact hP
      · rw [if_neg hc]
        intro j hj
        rcases List.mem_append.mp hj with h1 | h1
        · by_cases hpres : (getJob acc.state.jobs x.id).isSome = true
          · rw [if_pos hpres] at h1
            exact hP j (List.mem_filter.mp h1).1
          · rw [if_neg hpres] at h1
            exact hP j h1
        · rcases List.mem_singleton.mp h1 with rfl
          exact hx hen
  · rw [syncStep_disabled f acc x (by simpa using hen)]
    exact hP

theorem syncFold_jobs_enabled (f : String → Option String) (l : List ScheduleEntry)
    (acc : SyncResult) (P : String → Prop)
    (hP : ∀ j ∈ acc.state.jobs, P j.id) (hl : ∀ x ∈ l, x.enabled = true → P x.id) :
    ∀ j ∈ (l.foldl (syncStep f) acc).state.jobs, P j.id := by
  induction l generalizing acc with
  | nil => exact hP
  | cons x rest ih =>
    exact ih _
      (syncStep_jobs_enabled f acc x P hP (hl x (List.mem_cons_self x rest)))
      (fun y hy => hl y (List.mem_cons_of_mem x hy))

theorem syncStep_logs_mono (f : String → Option String) (acc : SyncResult)
    (x : ScheduleEntry) (m : String) (h : m ∈ acc.logs) : m ∈ (syncStep f acc x).logs := by
  by_cases hen : x.enabled = true
  · cases hb : buildTrigger f x with
    | error err =>
      rw [syncStep_error f acc x err hen hb]
      exact List.mem_append.mpr (Or.inl h)
    | ok t =>
      simp only [syncStep, hen, Bool.not_true, Bool.false_eq_true, if_false, hb]
      by_cases hc : (!(alookup acc.state.known_versions x.id != some x.updated_at) &&
          (getJob acc.state.jobs x.id).isSome) = true
      · rw [if_pos hc]; exact h
      · rw [if_neg hc]; exact h
  · rw [syncStep_disabled f acc x (by simpa using hen)]
    exact h

theorem syncFold_logs_mono (f : String → Option String) (l : List ScheduleEntry)
    (acc : SyncResult) (m : String) (h : m ∈ acc.logs) :
    m ∈ (l.foldl (syncStep f) acc).logs := by
  induction l generalizing acc with
  | nil => exact h
  | cons x rest ih => exact ih _ (syncStep_logs_mono f acc x m h)

theorem syncFold_logs_adds (f : String → Option String) (l : List ScheduleEntry)
    (acc : SyncResult) (e : ScheduleEntry) (err : String) (he : e ∈ l)
    (hen : e.enabled = true) (hb : buildTrigger f e = .error err) :
    skipMessage e.id err ∈ (l.foldl (syncStep f) acc).logs := by
  induction l generalizing acc with
  | nil => cases he
  | cons x rest ih =>
    rcases List.mem_cons.mp he with h0 | h0
    · subst h0
      refine syncFold_logs_mono f rest _ _ ?_
      rw [syncStep_error f acc e err hen hb]
      exact List.mem_append.mpr (Or.inr (List.mem_singleton.mpr rfl))
    · exact ih _ h0

theorem upsert_nonmatch_filter {now : String} {e : ScheduleEntry} {fs fs' : FileState}
    {e0 : ScheduleEntry} (hobj : ∀ r ∈ ScheduleStore.itemsOf fs, isObj r = true)
    (h : ScheduleStore.upsert now e fs = .ok (fs', e0)) :
    (ScheduleStore.itemsOf fs').filter (fun r => !(rawId r == e.id)) =
      (ScheduleStore.itemsOf fs).filter (fun r => !(rawId r == e.id)) := by
  obtain ⟨fs1, hrun, hframe, hchar⟩ := upsert_char now e fs hobj
  rw [hrun] at h
  cases h
  rcases hchar with ⟨pre, r0, post, hsplit, hitems, hpre, hr0, hid⟩ | ⟨hno, hitems⟩
  · rw [hitems, hsplit, List.filter_append, List.filter_append]
    simp [List.filter_cons, rawId_dump_set, hid]
  · rw [hitems, List.filter_append]
    simp only [List.filter_cons, List.filter_nil]
    rw [if_neg (by simp [rawId_dump_set])]
    simp

theorem objField_dump_updated_at (e : ScheduleEntry) (t : String) :
    objField (ScheduleEntry.model_dump { e with updated_at := t }) "updated_at" =
      some (.str t) := by
  simp [ScheduleEntry.model_dump, objField, alookup]

theorem updatedAtOf_upsert {now : String} {e : ScheduleEntry} {fs fs' : FileState}
    {e0 : ScheduleEntry} (hobj : ∀ r ∈ ScheduleStore.itemsOf fs, isObj r = true)
    (h : ScheduleStore.upsert now e fs = .ok (fs', e0)) :
    updatedAtOf fs' e.id = some (.str now) := by
  obtain ⟨fs1, hrun, hframe, hchar⟩ := upsert_char now e fs hobj
  rw [hrun] at h
  cases h
  rcases hchar with ⟨pre, r0, post, hsplit, hitems, hpre, hr0, hid⟩ | ⟨hno, hitems⟩
  · rw [updatedAtOf, hitems]
    rw [find?_no_match_append pre _ _ (fun x hx => by simp [(hpre x hx).2])]
    rw [List.find?_cons_of_pos _ (by simp [rawId_dump_set])]
    simp [objField_dump_updated_at]
  · rw [updatedAtOf, hitems]
    rw [find?_no_match_append _ _ _ (fun x hx => by simp [hno x hx])]
    rw [List.find?_cons_of_pos _ (by simp [rawId_dump_set])]
    simp [objField_dump_updated_at]

theorem buildTrigger_error_iff (f : String → Option String) (e : ScheduleEntry) :
    (∃ msg, buildTrigger f e = .error msg) ↔ specInvalidTrigger f e := by
  by_cases h1 : e.trigger = "date"
  · have h2 : e.trigger ∈ triggerKinds := by simp [h1, triggerKinds]
    cases hra : e.run_at with
    | none => simp [buildTrigger, specInvalidTrigger, h1, hra, h2, triggerKinds]
    | some s =>
      by_cases hs : s = ""
      · subst hs
        simp [buildTrigger, specInvalidTrigger, h1, hra, h2, triggerKinds]
      · cases hf : f s with
        | none =>
          simp [buildTrigger, specInvalidTrigger, h1, hra, hs, hf, h2, triggerKinds]
        | some dt =>
          simp [buildTrigger, specInvalidTrigger, h1, hra, hs, hf, h2, triggerKinds]
  · by_cases h3 : e.trigger = "interval"
    · have h2 : e.trigger ∈ triggerKinds := by simp [h3, triggerKinds]
      cases hn : e.interval_seconds with
      | none => simp [buildTrigger, specInvalidTrigger, h1, h3, hn, h2, triggerKinds]
      | some n =>
        by_cases hle : n ≤ 0
        · simp [buildTrigger, specInvalidTrigger, h1, h3, hn, hle, h2, triggerKinds]
        · simp [buildTrigger, specInvalidTrigger, h1, h3, hn, hle, h2, triggerKinds]
    · by_cases h4 : e.trigger = "cron"
      · have h2 : e.trigger ∈ triggerKinds := by simp [h4, triggerKinds]
        cases hc : e.cron with
        | none => simp [buildTrigger, specInvalidTrigger, h1, h3, h4, hc, h2, triggerKinds]
        | some m =>
          cases m with
          | nil => simp [buildTrigger, specInvalidTrigger, h1, h3, h4, hc, h2, triggerKinds]
          | cons kv rest =>
            simp [buildTrigger, specInvalidTrigger, h1, h3, h4, hc, h2, triggerKinds]
      · have h5 : ¬ e.trigger ∈ triggerKinds := by simp [triggerKinds, h1, h3, h4]
        simp [buildTrigger, specInvalidTrigger, h1, h3, h4, h5]

theorem buildTrigger_ok_kind (f : String → Option String) (e : ScheduleEntry)
    (t : Trigger) (h : buildTrigger f e = .ok t) : t.kind = e.trigger := by
  by_cases h1 : e.trigger = "date"
  · cases hra : e.run_at with
    | none => simp [buildTrigger, h1, hra] at h
    | some s =>
      by_cases hs : s = ""
      · subst hs; simp [buildTrigger, h1, hra] at h
      · cases hf : f s with
        | none => simp [buildTrigger, h1, hra, hs, hf] at h
        | some dt =>
          simp only [buildTrigger, h1, if_pos rfl, hra, hs, if_neg hs, hf] at h
          cases h
          simp [Trigger.kind, h1]
  · by_cases h3 : e.trigger = "interval"
    · cases hn : e.interval_seconds with
      | none => simp [buildTrigger, h1, h3, hn] at h
      | some n =>
        by_cases hle : n ≤ 0
        · simp [buildTrigger, h1, h3, hn, hle] at h
        · simp only [buildTrigger, h1, if_neg h1, h3, if_pos rfl, hn, hle, if_neg hle] at h
          cases h
          simp [Trigger.kind, h3]
    · by_cases h4 : e.trigger = "cron"
      · cases hc : e.cron with
        | none => simp [buildTrigger, h1, h3, h4, hc] at h
        | some m =>
          cases m with
          | nil => simp [buildTrigger, h1, h3, h4, hc] at h
          | cons kv rest =>
            simp only [buildTrigger, h1, if_neg h1, h3, if_neg h3, h4, if_pos rfl, hc] at h
            cases h
            simp [Trigger.kind, h4]
      · simp [buildTrigger, h1, h3, h4] at h

theorem syncJobs_jobs_enabled (f : String → Option String) (entries : List ScheduleEntry)
    (st : ServiceState) :
    ∀ j ∈ (syncJobs f entries st).state.jobs, j.id ∈ enabledIds entries := by
  simp only [syncJobs]
  refine syncFold_jobs_enabled f entries _ _ ?_ ?_
  · intro j hj
    exact (contains_iff _ _).mp (List.mem_filter.mp hj).2
  · intro x hx hen
    exact List.mem_map.mpr ⟨x, List.mem_filter.mpr ⟨hx, by simp [hen]⟩, rfl⟩

theorem syncJobs_known_job (f : String → Option String) (entries : List ScheduleEntry)
    (st : ServiceState) (hnd : (entries.map (fun e => e.id)).Nodup)
    (e : ScheduleEntry) (he : e ∈ entries) (hen : e.enabled = true)
    (t : Trigger) (hb : buildTrigger f e = .ok t) :
    alookup (syncJobs f entries st).state.known_versions e.id = some e.updated_at ∧
    (getJob (syncJobs f entries st).state.jobs e.id).isSome = true := by
  simp only [syncJobs]
  exact syncFold_known_job f entries _ hnd e he hen t hb

instance (n hay : String) : Decidable (appearsIn n hay) :=
  inferInstanceAs (Decidable (n.toList <:+: hay.toList))

theorem appearsIn_skipMessage (i err : String) : appearsIn i (skipMessage i err) := by
  refine ⟨"[yellow]Skipping schedule ".toList,
    (": invalid trigger (" ++ err ++ ")[/yellow]").toList, ?_⟩
  simp [skipMessage, appearsIn]

/-! The claim theorems. -/

/-- C2: delete(id) returns true exactly when a record with that raw id was
present (and removes every such record); when it returns false the backing
file is untouched; with no re-creation in between, a second delete of the
same id returns false and leaves the state unchanged. -/
theorem claim2_delete_idempotent (sid : String) (fs : FileState)
    (hobj : ∀ r ∈ ScheduleStore.itemsOf fs, isObj r = true) :
    ∃ fs' chg, ScheduleStore.delete sid fs = .ok (fs', chg) ∧
      (chg = true ↔ ∃ r ∈ ScheduleStore.itemsOf fs, rawId r = sid) ∧
      ScheduleStore.itemsOf fs' =
        (ScheduleStore.itemsOf fs).filter (fun r => !(rawId r == sid)) ∧
      (chg = false → fs' = fs) ∧
      ScheduleStore.delete sid fs' = .ok (fs', false) := by
  obtain ⟨fs', chg, hrun, hitems, hiff, hfalse, hframe⟩ := delete_ok sid fs hobj
  have hobj' : ∀ r ∈ ScheduleStore.itemsOf fs', isObj r = true := by
    intro r hr
    rw [hitems] at hr
    exact hobj r (List.mem_filter.mp hr).1
  obtain ⟨fs2, chg2, hrun2, hitems2, hiff2, hfalse2, hframe2⟩ := delete_ok sid fs' hobj'
  have hchg2 : chg2 = false := by
    cases hc2 : chg2
    · rfl
    · obtain ⟨r, hr, hre⟩ := hiff2.mp hc2
      rw [hitems] at hr
      have h5 := (List.mem_filter.mp hr).2
      simp [hre] at h5
  refine ⟨fs', chg, hrun, hiff, hitems, hfalse, ?_⟩
  rw [hchg2] at hrun2 hfalse2
  rw [hfalse2 rfl] at hrun2
  exact hrun2

/-- C2 witness: a store holding exactly the record with id s1. -/
theorem claim2_witness :
    ∃ fs' chg, ScheduleStore.delete "s1"
        (.parsed (.obj [("schedules", .arr [sampleDate.model_dump])])) = .ok (fs', chg) ∧
      (chg = true ↔ ∃ r ∈ ScheduleStore.itemsOf
        (.parsed (.obj [("schedules", .arr [sampleDate.model_dump])])), rawId r = "s1") ∧
      ScheduleStore.itemsOf fs' =
        (ScheduleStore.itemsOf
          (.parsed (.obj [("schedules", .arr [sampleDate.model_dump])]))).filter
            (fun r => !(rawId r == "s1")) ∧
      (chg = false → fs' = .parsed (.obj [("schedules", .arr [sampleDate.model_dump])])) ∧
      ScheduleStore.delete "s1" fs' = .ok (fs', false) :=
  claim2_delete_idempotent "s1"
    (.parsed (.obj [("schedules", .arr [sampleDate.model_dump])]))
    (by intro r hr
        rcases List.mem_singleton.mp hr with rfl
        rfl)

/-- C3 counterexample: the entry with id s1 is enabled but its date trigger
does not build, so the spec's should-be-active set is empty; yet after a
reconciliation pass over a state holding a scheduled job s1, that job is
still scheduled (the code's removal set is the enabled ids, buildability is
not consulted). -/
theorem claim3_counterexample :
    specActiveIds isoAny [sampleBroken] = [] ∧
    sampleState.jobs.map (fun j => j.id) = ["s1"] ∧
    (syncJobs isoAny [sampleBroken] sampleState).state.jobs.map (fun j => j.id) =
      ["s1"] := by
  refine ⟨rfl, rfl, rfl⟩

/-- C3 (amended): the set of ids the reconciliation pass keeps or rebuilds is
the set of enabled entry ids, regardless of trigger buildability: every job
surviving the pass carries an enabled id, every job whose id is not an
enabled id is gone after the pass, and every enabled entry whose trigger
builds has a job scheduled after the pass.  A scheduled job whose entry is
still enabled but whose trigger no longer builds is left in place. -/
theorem claim3_sync_active_set (f : String → Option String)
    (entries : List ScheduleEntry) (st : ServiceState) :
    (∀ j ∈ (syncJobs f entries st).state.jobs, j.id ∈ enabledIds entries) ∧
    (∀ j ∈ st.jobs, j.id ∉ enabledIds entries →
      ∀ j2 ∈ (syncJobs f entries st).state.jobs, j2.id ≠ j.id) ∧
    (∀ e ∈ entries, e.enabled = true → ∀ t, buildTrigger f e = .ok t →
      ∃ j ∈ (syncJobs f entries st).state.jobs, j.id = e.id) := by
  refine ⟨syncJobs_jobs_enabled f entries st, ?_, ?_⟩
  · intro j hj hnot j2 hj2 heq
    exact hnot (heq ▸ syncJobs_jobs_enabled f entries st j2 hj2)
  · intro e he hen t hb
    simp only [syncJobs]
    exact syncFold_establishes f entries _ e he hen t hb

/-- C3 witness: an enabled interval entry is scheduled after the pass. -/
theorem claim3_witness :
    ∃ j ∈ (syncJobs isoAny [sampleInterval]
      { jobs := [], known_versions := [] }).state.jobs, j.id = sampleInterval.id :=
  (claim3_sync_active_set isoAny [sampleInterval]
    { jobs := [], known_versions := [] }).2.2 sampleInterval
    (List.mem_cons_self _ _) rfl (.intervalT 60) rfl

/-- C4: list() is total: a missing backing file and a file whose text does
not parse both yield the empty collection; on a parsed document an entry is
returned exactly when some raw record validates to it (records that fail
validation are dropped, all validating ones are kept); concretely, a
document holding one valid record, one invalid record and an unrelated top
key lists exactly the valid entry. -/
theorem claim4_list_total :
    (∀ now, ScheduleStore.list now .missing = [] ∧
      ScheduleStore.list now .garbled = []) ∧
    (∀ now doc e, e ∈ ScheduleStore.list now (.parsed doc) ↔
      ∃ r ∈ ScheduleStore.itemsOf (.parsed doc),
        ScheduleEntry.model_validate now r = some e) ∧
    ScheduleStore.list "t0" (.parsed (.obj
      [("schedules", .arr [sampleDate.model_dump, .obj [("id", .str "bad")]]),
       ("extra", .bool true)])) = [sampleDate] := by
  refine ⟨fun now => ⟨rfl, rfl⟩, ?_, rfl⟩
  intro now doc e
  simp [ScheduleStore.list, List.mem_filterMap]

/-- C5: the Trigger Builder rejects an entry exactly when its payload is
invalid for its kind in the spec's sense (date: missing or unparseable
run_at; interval: missing or non-positive interval_seconds; cron: missing or
empty mapping; any other kind), returns a trigger of the matching kind
otherwise, and on the concrete cron payloads: the minute-0/every-hour mapping
builds, the empty mapping is rejected. -/
theorem claim5_trigger_builder_validation (f : String → Option String)
    (e : ScheduleEntry) :
    ((∃ msg, buildTrigger f e = .error msg) ↔ specInvalidTrigger f e) ∧
    (∀ t, buildTrigger f e = .ok t → t.kind = e.trigger) ∧
    buildTrigger f sampleCron = .ok (.cronT [("minute", "0"), ("hour", "*")]) ∧
    buildTrigger f sampleCronEmpty = .error "cron trigger requires cron field mapping" :=
  ⟨buildTrigger_error_iff f e, fun t h => buildTrigger_ok_kind f e t h, rfl, rfl⟩

/-- C5 witness: a built interval trigger has the interval kind, and the iff
instantiates on the broken date entry. -/
theorem claim5_witness :
    Trigger.kind (.intervalT 60) = sampleInterval.trigger ∧
    ((∃ msg, buildTrigger isoAny sampleBroken = .error msg) ↔
      specInvalidTrigger isoAny sampleBroken) :=
  ⟨(claim5_trigger_builder_validation isoAny sampleInterval).2.1 (.intervalT 60) rfl,
   (claim5_trigger_builder_validation isoAny sampleBroken).1⟩

/-- C8 counterexample: list() does acquire the store lock — the with-lock
block around its body records an acquire (and a release), refuting that the
read happens without acquiring the cross-process lock. -/
theorem claim8_counterexample :
    (ScheduleStore.listLocked "t0" .missing).1 = [.acquire, .release] ∧
    LockEvent.acquire ∈ (ScheduleStore.listLocked "t0" .missing).1 :=
  ⟨rfl, by decide⟩

/-- C8 (amended): all three store operations, list included, acquire the
cross-process lock on entry and release it on exit, so a reader is
serialized with writers rather than reading lock-free. -/
theorem claim8_all_ops_locked (now sid : String) (e : ScheduleEntry) (fs : FileState) :
    (ScheduleStore.listLocked now fs).1 = [.acquire, .release] ∧
    (ScheduleStore.listLocked now fs).2 = ScheduleStore.list now fs ∧
    (ScheduleStore.upsertLocked now e fs).1 = [.acquire, .release] ∧
    (ScheduleStore.deleteLocked sid fs).1 = [.acquire, .release] :=
  ⟨rfl, rfl, rfl, rfl⟩

/-- C9 counterexample: the error raised for the broken date entry (id s1)
is the fixed message for a missing run_at; the id does not occur in it. -/
theorem claim9_counterexample :
    buildTrigger isoAny sampleBroken = .error "date trigger requires run_at" ∧
    ¬ appearsIn sampleBroken.id "date trigger requires run_at" :=
  ⟨rfl, by decide⟩

/-- C9 (amended): the raised error does not carry the id; it is the skip log
line the reconciliation pass prints for the rejected entry that names the
entry's id — that line is emitted on every pass in which the trigger fails
to build, and the id occurs verbatim in it. -/
theorem claim9_skip_log_names_id (f : String → Option String)
    (entries : List ScheduleEntry) (st : ServiceState) (e : ScheduleEntry)
    (err : String) (he : e ∈ entries) (hen : e.enabled = true)
    (hb : buildTrigger f e = .error err) :
    skipMessage e.id err ∈ (syncJobs f entries st).logs ∧
    appearsIn e.id (skipMessage e.id err) := by
  constructor
  · simp only [syncJobs]
    exact syncFold_logs_adds f entries _ e err he hen hb
  · exact appearsIn_skipMessage e.id err

/-- C9 witness: the broken date entry's skip line is logged and names s1. -/
theorem claim9_witness :
    skipMessage sampleBroken.id "date trigger requires run_at" ∈
      (syncJobs isoAny [sampleBroken] sampleState).logs ∧
    appearsIn sampleBroken.id
      (skipMessage sampleBroken.id "date trigger requires run_at") :=
  claim9_skip_log_names_id isoAny [sampleBroken] sampleState sampleBroken
    "date trigger requires run_at" (List.mem_cons_self _ _) rfl rfl

/-- C1: upsert(e) replaces the (unique, by the store's id-uniqueness
invariant) record whose raw id equals e.id or appends when none matches,
stores e with updated_at set to the call time, returns that stored entry,
and afterwards list() holds exactly one entry with id e.id carrying e's
fields except updated_at; a second upsert with the same id leaves list()
reflecting only the second payload. -/
theorem claim1_upsert_last_writer_wins (now t2 now2 : String)
    (e e2 : ScheduleEntry) (fs : FileState)
    (hobj : ∀ r ∈ ScheduleStore.itemsOf fs, isObj r = true)
    (hnd : (rawIds (ScheduleStore.itemsOf fs)).Nodup)
    (hwf : e.trigger ∈ triggerKinds) (hwf2 : e2.trigger ∈ triggerKinds)
    (hid : e2.id = e.id) :
    ∃ fs' fs'',
      ScheduleStore.upsert now e fs = .ok (fs', { e with updated_at := now }) ∧
      ((∃ pre r0 post, ScheduleStore.itemsOf fs = pre ++ r0 :: post ∧
          rawId r0 = e.id ∧
          ScheduleStore.itemsOf fs' =
            pre ++ ScheduleEntry.model_dump { e with updated_at := now } :: post) ∨
       ((∀ r ∈ ScheduleStore.itemsOf fs, rawId r ≠ e.id) ∧
        ScheduleStore.itemsOf fs' = ScheduleStore.itemsOf fs ++
          [ScheduleEntry.model_dump { e with updated_at := now }])) ∧
      (ScheduleStore.list now2 fs').filter (fun x => x.id == e.id) =
        [{ e with updated_at := now }] ∧
      ScheduleStore.upsert t2 e2 fs' = .ok (fs'', { e2 with updated_at := t2 }) ∧
      (ScheduleStore.list now2 fs'').filter (fun x => x.id == e.id) =
        [{ e2 with updated_at := t2 }] := by
  obtain ⟨fs', hrun1, hframe1, hchar1⟩ := upsert_char now e fs hobj
  have hobj' := upsert_preserves_objs hobj hrun1
  have hnd' := upsert_preserves_nodup hobj hnd hrun1
  obtain ⟨hfm1, hfn1⟩ := upsert_items_filter hobj hnd hrun1
  obtain ⟨fs'', hrun2, hframe2, hchar2⟩ := upsert_char t2 e2 fs' hobj'
  obtain ⟨hfm2, hfn2⟩ := upsert_items_filter hobj' hnd' hrun2
  refine ⟨fs', fs'', hrun1, ?_, ?_, hrun2, ?_⟩
  · rcases hchar1 with ⟨pre, r0, post, h1, h2, h3, h4, h5⟩ | ⟨h1, h2⟩
    · exact Or.inl ⟨pre, r0, post, h1, h5, h2⟩
    · exact Or.inr ⟨h1, h2⟩
  · rw [ScheduleStore.list, filterMap_validate_filter, hfm1]
    have hvd := validate_dump now2 { e with updated_at := now }
      (by rw [set_updated_at_trigger]; exact hwf)
    simp [hvd]
  · rw [← hid]
    rw [ScheduleStore.list, filterMap_validate_filter, hfm2]
    have hvd := validate_dump now2 { e2 with updated_at := t2 }
      (by rw [set_updated_at_trigger]; exact hwf2)
    simp [hvd]

/-- C1 witness: two upserts of id s1 into an empty store; the final listing
filtered to s1 is exactly the second payload. -/
theorem claim1_witness :
    ∃ fs' fs'',
      ScheduleStore.upsert "t1" sampleDate .missing =
        .ok (fs', { sampleDate with updated_at := "t1" }) ∧
      ScheduleStore.upsert "t2" { sampleDate with name := "demo2" } fs' =
        .ok (fs'', { { sampleDate with name := "demo2" } with updated_at := "t2" }) ∧
      (ScheduleStore.list "t9" fs'').filter (fun x => x.id == sampleDate.id) =
        [{ { sampleDate with name := "demo2" } with updated_at := "t2" }] := by
  obtain ⟨fs', fs'', h1, h2, h3, h4, h5⟩ :=
    claim1_upsert_last_writer_wins "t1" "t2" "t9" sampleDate
      { sampleDate with name := "demo2" } .missing
      (fun r hr => absurd hr (List.not_mem_nil r))
      (by decide) (by decide) (by decide) rfl
  exact ⟨fs', fs'', h1, h4, h5⟩

/-- C6: with the store's id-uniqueness invariant on the fetched entry list,
a second reconciliation pass over an unchanged entry list removes no job,
rebuilds no job and leaves the service state (jobs and remembered
updated_at map) exactly as the first pass left it. -/
theorem claim6_sync_idempotent (f : String → Option String)
    (entries : List ScheduleEntry) (st : ServiceState)
    (hnd : (entries.map (fun e => e.id)).Nodup) :
    (syncJobs f entries (syncJobs f entries st).state).state =
      (syncJobs f entries st).state ∧
    (syncJobs f entries (syncJobs f entries st).state).removed = [] ∧
    (syncJobs f entries (syncJobs f entries st).state).rebuilt = [] := by
  have hjobs1 := syncJobs_jobs_enabled f entries st
  have hkeep : ((syncJobs f entries st).state.jobs.filter
      (fun j => (enabledIds entries).contains j.id)) =
      (syncJobs f entries st).state.jobs :=
    List.filter_eq_self.mpr (fun j hj => (contains_iff _ _).mpr (hjobs1 j hj))
  have hrem : ((syncJobs f entries st).state.jobs.filter
      (fun j => !(enabledIds entries).contains j.id)) = [] :=
    List.filter_eq_nil_iff.mpr (fun j hj => by
      simp
      exact hjobs1 j hj)
  have hinv : ∀ e ∈ entries, e.enabled = true → ∀ t, buildTrigger f e = .ok t →
      alookup (syncJobs f entries st).state.known_versions e.id = some e.updated_at ∧
      (getJob (syncJobs f entries st).state.jobs e.id).isSome = true :=
    fun e he hen t hb => syncJobs_known_job f entries st hnd e he hen t hb
  have hinit : ((⟨⟨List.filter (fun j => (enabledIds entries).contains j.id)
        (syncJobs f entries st).state.jobs,
      (syncJobs f entries st).state.known_versions⟩,
      List.map (fun j => j.id)
        (List.filter (fun j => !(enabledIds entries).contains j.id)
          (syncJobs f entries st).state.jobs),
      [], []⟩ : SyncResult)) =
      ⟨(syncJobs f entries st).state, [], [], []⟩ := by
    rw [hkeep, hrem]
    rfl
  have h0 : syncJobs f entries (syncJobs f entries st).state =
      entries.foldl (syncStep f)
        ⟨⟨List.filter (fun j => (enabledIds entries).contains j.id)
            (syncJobs f entries st).state.jobs,
          (syncJobs f entries st).state.known_versions⟩,
          List.map (fun j => j.id)
            (List.filter (fun j => !(enabledIds entries).contains j.id)
              (syncJobs f entries st).state.jobs),
          [], []⟩ := rfl
  rw [h0, hinit]
  exact syncFold_noop f entries ⟨(syncJobs f entries st).state, [], [], []⟩ hinv

/-- C6 witness: two entries with distinct ids, one buildable and one not;
the second pass changes nothing and performs no removals or rebuilds. -/
theorem claim6_witness :
    (syncJobs isoAny [sampleInterval, sampleBroken]
        (syncJobs isoAny [sampleInterval, sampleBroken]
          { jobs := [], known_versions := [] }).state).state =
      (syncJobs isoAny [sampleInterval, sampleBroken]
        { jobs := [], known_versions := [] }).state ∧
    (syncJobs isoAny [sampleInterval, sampleBroken]
        (syncJobs isoAny [sampleInterval, sampleBroken]
          { jobs := [], known_versions := [] }).state).removed = [] ∧
    (syncJobs isoAny [sampleInterval, sampleBroken]
        (syncJobs isoAny [sampleInterval, sampleBroken]
          { jobs := [], known_versions := [] }).state).rebuilt = [] :=
  claim6_sync_idempotent isoAny [sampleInterval, sampleBroken]
    { jobs := [], known_versions := [] } (by decide)

/-- C7: upsert stamps the stored record's updated_at with the call time
(both in the returned entry and in the raw document), so under a monotone
clock two successive upserts of the same id leave a non-decreasing
updated_at; delete never edits a surviving record's updated_at (only upsert
writes the field). -/
theorem claim7_updated_at_monotone (t1 t2 : String) (e1 e2 : ScheduleEntry)
    (fs : FileState) (hobj : ∀ r ∈ ScheduleStore.itemsOf fs, isObj r = true)
    (hid : e2.id = e1.id) (hmono : t1 ≤ t2) :
    ∃ fs' fs'',
      ScheduleStore.upsert t1 e1 fs = .ok (fs', { e1 with updated_at := t1 }) ∧
      updatedAtOf fs' e1.id = some (.str t1) ∧
      ScheduleStore.upsert t2 e2 fs' = .ok (fs'', { e2 with updated_at := t2 }) ∧
      updatedAtOf fs'' e1.id = some (.str t2) ∧ t1 ≤ t2 ∧
      (∀ sid fs3 chg, ScheduleStore.delete sid fs'' = .ok (fs3, chg) →
        ∀ i, i ≠ sid → updatedAtOf fs3 i = updatedAtOf fs'' i) := by
  obtain ⟨fs', hrun1, hframe1, hchar1⟩ := upsert_char t1 e1 fs hobj
  have hobj' := upsert_preserves_objs hobj hrun1
  obtain ⟨fs'', hrun2, hframe2, hchar2⟩ := upsert_char t2 e2 fs' hobj'
  have hobj'' := upsert_preserves_objs hobj' hrun2
  have hup1 := updatedAtOf_upsert hobj hrun1
  have hup2 := updatedAtOf_upsert hobj' hrun2
  refine ⟨fs', fs'', hrun1, hup1, hrun2, by rw [← hid]; exact hup2, hmono, ?_⟩
  intro sid fs3 chg hdel i hi
  obtain ⟨fs3b, chgb, hrunb, hitemsb, hiffb, hfalseb, hframeb⟩ := delete_ok sid fs'' hobj''
  rw [hrunb] at hdel
  cases hdel
  rw [updatedAtOf, updatedAtOf, hitemsb]
  rw [find?_filter_of_imp (fun r => rawId r == i) (fun r => !(rawId r == sid)) _
    (fun x hx => by
      have hxi : rawId x = i := by simpa using hx
      simp [hxi, hi])]

/-- C7 witness: two upserts of id s1 at the same clock reading into an empty
store. -/
theorem claim7_witness :
    ∃ fs' fs'',
      ScheduleStore.upsert "t5" sampleDate .missing =
        .ok (fs', { sampleDate with updated_at := "t5" }) ∧
      updatedAtOf fs' sampleDate.id = some (.str "t5") ∧
      ScheduleStore.upsert "t5" { sampleDate with name := "demo2" } fs' =
        .ok (fs'', { { sampleDate with name := "demo2" } with updated_at := "t5" }) ∧
      updatedAtOf fs'' sampleDate.id = some (.str "t5") ∧ ("t5" : String) ≤ "t5" ∧
      (∀ sid fs3 chg, ScheduleStore.delete sid fs'' = .ok (fs3, chg) →
        ∀ i, i ≠ sid → updatedAtOf fs3 i = updatedAtOf fs'' i) :=
  claim7_updated_at_monotone "t5" "t5" sampleDate
    { sampleDate with name := "demo2" } .missing
    (fun r hr => absurd hr (List.not_mem_nil r)) rfl (le_refl _)

/-- C10: upsert and delete leave top-level document keys other than
"schedules" with their original values, carry every raw record whose id
differs from the target through unchanged (the non-matching sublist is
identical before and after an upsert; after a delete every record with a
different id is still present), and a record that fails entry validation —
invisible to list() — is still removed by a delete of its raw id. -/
theorem claim10_untouched_preserved :
    (∀ now (e : ScheduleEntry) (kvs : List (String × Json)) fs' e0,
      (∀ r ∈ ScheduleStore.itemsOf (.parsed (.obj kvs)), isObj r = true) →
      ScheduleStore.upsert now e (.parsed (.obj kvs)) = .ok (fs', e0) →
      ∀ k, k ≠ "schedules" →
        objField (ScheduleStore.read fs') k = alookup kvs k) ∧
    (∀ now (e : ScheduleEntry) fs fs' e0,
      (∀ r ∈ ScheduleStore.itemsOf fs, isObj r = true) →
      ScheduleStore.upsert now e fs = .ok (fs', e0) →
      (ScheduleStore.itemsOf fs').filter (fun r => !(rawId r == e.id)) =
        (ScheduleStore.itemsOf fs).filter (fun r => !(rawId r == e.id))) ∧
    (∀ sid (kvs : List (String × Json)) fs' chg,
      (∀ r ∈ ScheduleStore.itemsOf (.parsed (.obj kvs)), isObj r = true) →
      ScheduleStore.delete sid (.parsed (.obj kvs)) = .ok (fs', chg) →
      ∀ k, k ≠ "schedules" →
        objField (ScheduleStore.read fs') k = alookup kvs k) ∧
    (∀ sid fs fs' chg,
      (∀ r ∈ ScheduleStore.itemsOf fs, isObj r = true) →
      ScheduleStore.delete sid fs = .ok (fs', chg) →
      ∀ r ∈ ScheduleStore.itemsOf fs, rawId r ≠ sid →
        r ∈ ScheduleStore.itemsOf fs') ∧
    (∀ now sid fs (r : Json),
      (∀ r2 ∈ ScheduleStore.itemsOf fs, isObj r2 = true) →
      r ∈ ScheduleStore.itemsOf fs → rawId r = sid →
      ScheduleEntry.model_validate now r = none →
      ∃ fs', ScheduleStore.delete sid fs = .ok (fs', true) ∧
        ∀ x ∈ ScheduleStore.itemsOf fs', rawId x ≠ sid) := by
  refine ⟨?_, ?_, ?_, ?_, ?_⟩
  · intro now e kvs fs' e0 hobj h k hk
    obtain ⟨fs1, hrun, hframe, hchar⟩ := upsert_char now e (.parsed (.obj kvs)) hobj
    rw [hrun] at h
    cases h
    rw [hframe k hk, read_objField_ne kvs k hk]
  · intro now e fs fs' e0 hobj h
    exact upsert_nonmatch_filter hobj h
  · intro sid kvs fs' chg hobj h k hk
    obtain ⟨fs1, chg1, hrun, hitems, hiff, hfalse, hframe⟩ :=
      delete_ok sid (.parsed (.obj kvs)) hobj
    rw [hrun] at h
    cases h
    rw [hframe k hk, read_objField_ne kvs k hk]
  · intro sid fs fs' chg hobj h r hr hne
    obtain ⟨fs1, chg1, hrun, hitems, hiff, hfalse, hframe⟩ := delete_ok sid fs hobj
    rw [hrun] at h
    cases h
    rw [hitems]
    exact List.mem_filter.mpr ⟨hr, by simp [hne]⟩
  · intro now sid fs r hobj hr hraw hval
    obtain ⟨fs1, chg1, hrun, hitems, hiff, hfalse, hframe⟩ := delete_ok sid fs hobj
    have hchg : chg1 = true := hiff.mpr ⟨r, hr, hraw⟩
    subst hchg
    refine ⟨fs1, hrun, ?_⟩
    intro x hx
    rw [hitems] at hx
    have h5 := (List.mem_filter.mp hx).2
    intro he
    simp [he] at h5

/-- C10 witness: a record with raw id g1 that fails validation is still
removed by delete("g1"). -/
theorem claim10_witness :
    ∃ fs', ScheduleStore.delete "g1"
        (.parsed (.obj [("schedules", .arr [.obj [("id", .str "g1")]])])) =
      .ok (fs', true) ∧
      ∀ x ∈ ScheduleStore.itemsOf fs', rawId x ≠ "g1" :=
  claim10_untouched_preserved.2.2.2.2 "t0" "g1"
    (.parsed (.obj [("schedules", .arr [.obj [("id", .str "g1")]])]))
    (.obj [("id", .str "g1")])
    (by intro r2 hr2
        rcases List.mem_singleton.mp hr2 with rfl
        rfl)
    (List.mem_singleton.mpr rfl) rfl rfl

end CrewComposer
